import Mathlib

/-!
# Verification of the music-queue business-logic core

A shallow embedding, in Lean 4, of the queue business-logic layer of the
`music-queue` repository (Go).  Strings are embedded as `List Char`; the Go
standard-library helpers used by the code (`strings.TrimSpace`,
`strings.ToLower`, `strings.Index`) are embedded over that representation
(ASCII whitespace and ASCII case folding, which covers every string the
repository manipulates in its code and tests).

The Line Store collaborator (`internal/storage`) reads a file as a list of
trimmed, non-blank lines and replaces a file's content wholesale; operations
are therefore embedded as pure functions from the current list of lines
(the result of `ReadLines`) to a result together with the list of whole-file
writes (`WriteLines` calls) they perform, in order.
-/

namespace MusicQueue

/-- A Go string, embedded as its list of characters. -/
abbrev Str := List Char

/-- Embedding of Go `unicode.IsSpace` restricted to the ASCII whitespace
characters (space, tab, newline, vertical tab, form feed, carriage return),
the only whitespace the repository's data ever contains. -/
def goIsSpace (c : Char) : Bool :=
  c == ' ' || c == '\t' || c == '\n' || c == '\x0b' || c == '\x0c' || c == '\r'

/-- Embedding of Go `strings.ToLower` on a single character, restricted to
ASCII case folding. -/
def goToLower (c : Char) : Char :=
  if c = 'A' then 'a' else if c = 'B' then 'b' else if c = 'C' then 'c'
  else if c = 'D' then 'd' else if c = 'E' then 'e' else if c = 'F' then 'f'
  else if c = 'G' then 'g' else if c = 'H' then 'h' else if c = 'I' then 'i'
  else if c = 'J' then 'j' else if c = 'K' then 'k' else if c = 'L' then 'l'
  else if c = 'M' then 'm' else if c = 'N' then 'n' else if c = 'O' then 'o'
  else if c = 'P' then 'p' else if c = 'Q' then 'q' else if c = 'R' then 'r'
  else if c = 'S' then 's' else if c = 'T' then 't' else if c = 'U' then 'u'
  else if c = 'V' then 'v' else if c = 'W' then 'w' else if c = 'X' then 'x'
  else if c = 'Y' then 'y' else if c = 'Z' then 'z' else c

/-- Embedding of Go `strings.ToLower` on a whole string. -/
def lowerStr (s : Str) : Str := s.map goToLower

/-- Embedding of Go `strings.TrimSpace`: drop leading and trailing
whitespace. -/
def goTrim (s : Str) : Str :=
  ((s.dropWhile goIsSpace).reverse.dropWhile goIsSpace).reverse

/-- The key under which an album entry is stored in the case-insensitive
duplicate index: `strings.ToLower(strings.TrimSpace(album))`
(src/internal/queue/queue.go line 81, src/unnamed/part_003 line 81). -/
def lowerTrim (s : Str) : Str := lowerStr (goTrim s)

/-- Embedding of Go `strings.Index(s, "-")` specialised to a one-character
needle: the index of the first occurrence of `c`, or `none`. -/
def strIndex (c : Char) : Str → Option Nat
  | [] => none
  | x :: t => if x = c then some 0 else (strIndex c t).map (· + 1)

/-- Embedding of `validateAlbumFormat` (src/internal/queue/queue.go lines
26-50, identical in src/unnamed/part_003 lines 26-50): trim, locate the
first `-`; reject if absent, at index 0, or at the last index; then require
the trimmed substrings strictly before and after that dash to be
non-empty. -/
def validateAlbumFormat (album : Str) : Bool :=
  let a := goTrim album
  match strIndex '-' a with
  | none => false
  | some dashIdx =>
    if dashIdx = 0 then false
    else if dashIdx = a.length - 1 then false
    else
      let beforeDash := goTrim (a.take dashIdx)
      let afterDash := goTrim (a.drop (dashIdx + 1))
      decide (0 < beforeDash.length) && decide (0 < afterDash.length)

/-- The format rule as the specification sentence words it: trim the input,
split at the first `-` only, and accept exactly when there is non-whitespace
content strictly before and strictly after that first dash. -/
def validFormatSpec (album : Str) : Bool :=
  let a := goTrim album
  match strIndex '-' a with
  | none => false
  | some dashIdx =>
    (a.take dashIdx).any (fun c => !goIsSpace c) &&
      (a.drop (dashIdx + 1)).any (fun c => !goIsSpace c)

/-! ## Elementary lemmas on the string model -/

theorem dropWhile_dropWhile (p : Char → Bool) (l : Str) :
    (l.dropWhile p).dropWhile p = l.dropWhile p := by
  induction l with
  | nil => rfl
  | cons a t ih =>
    by_cases h : p a
    · simpa [List.dropWhile_cons, h] using ih
    · simp [List.dropWhile_cons, h]

theorem dropWhile_append_self (p : Char → Bool) (l : Str) :
    ∃ t, t ++ l.dropWhile p = l := by
  induction l with
  | nil => exact ⟨[], rfl⟩
  | cons a t ih =>
    by_cases h : p a
    · obtain ⟨u, hu⟩ := ih
      exact ⟨a :: u, by simp [List.dropWhile_cons, h, hu]⟩
    · exact ⟨[], by simp [List.dropWhile_cons, h]⟩

theorem dropWhile_of_firstSegment (p : Char → Bool) (a b : Str)
    (ha : a.dropWhile p = a) (hb : ∃ r, b ++ r = a) :
    b.dropWhile p = b := by
  obtain ⟨r, hr⟩ := hb
  cases b with
  | nil => rfl
  | cons x t =>
    have hx : ¬ p x := by
      intro hpx
      have h1 : a.dropWhile p = (t ++ r).dropWhile p := by
        rw [← hr]; simp [List.dropWhile_cons, hpx]
      have h2 : ((t ++ r).dropWhile p).length ≤ (t ++ r).length :=
        (List.dropWhile_sublist p).length_le
      rw [← h1, ha, ← hr] at h2
      simp at h2
    simp [List.dropWhile_cons, hx]

theorem goTrim_idem (s : Str) : goTrim (goTrim s) = goTrim s := by
  unfold goTrim
  set p := goIsSpace with hp
  set A := s.dropWhile p with hA
  have hAdrop : A.dropWhile p = A := dropWhile_dropWhile p s
  set B := (A.reverse.dropWhile p).reverse with hB
  have hBpre : ∃ r, B ++ r = A := by
    obtain ⟨t, ht⟩ := dropWhile_append_self p A.reverse
    refine ⟨t.reverse, ?_⟩
    have := congrArg List.reverse ht
    simpa [hB] using this
  have hBdrop : B.dropWhile p = B := dropWhile_of_firstSegment p A B hAdrop hBpre
  have hrevB : B.reverse.dropWhile p = B.reverse := by
    have h : B.reverse = A.reverse.dropWhile p := by simp [hB]
    rw [h, dropWhile_dropWhile]
  rw [hBdrop, hrevB, List.reverse_reverse]

theorem lowerTrim_goTrim (s : Str) : lowerTrim (goTrim s) = lowerTrim s := by
  unfold lowerTrim
  rw [goTrim_idem]

theorem validateAlbumFormat_goTrim (s : Str) :
    validateAlbumFormat (goTrim s) = validateAlbumFormat s := by
  unfold validateAlbumFormat
  rw [goTrim_idem]

/-- `goTrim` is empty exactly when the string has no non-whitespace
character. -/
theorem goTrim_eq_nil_iff (s : Str) :
    goTrim s = [] ↔ ∀ c ∈ s, goIsSpace c := by
  unfold goTrim
  constructor
  · intro h c hc
    have h2 : (s.dropWhile goIsSpace).reverse.dropWhile goIsSpace = [] := by
      have := congrArg List.reverse h
      simpa using this
    have hall : ∀ x ∈ (s.dropWhile goIsSpace).reverse, goIsSpace x :=
      List.dropWhile_eq_nil_iff.mp h2
    have hall2 : ∀ x ∈ s.dropWhile goIsSpace, goIsSpace x := by
      intro x hx
      exact hall x (by simpa using hx)
    have hc2 : c ∈ s.takeWhile goIsSpace ++ s.dropWhile goIsSpace := by
      rw [List.takeWhile_append_dropWhile]; exact hc
    rcases List.mem_append.mp hc2 with htw | hdw
    · exact List.mem_takeWhile_imp htw
    · exact hall2 c hdw
  · intro h
    have h1 : s.dropWhile goIsSpace = [] :=
      List.dropWhile_eq_nil_iff.mpr (fun x hx => h x hx)
    simp [h1]

/-- The 26 uppercase/lowercase ASCII letter pairs underlying `goToLower`. -/
def upperLowerPairs : List (Char × Char) :=
  [('A', 'a'), ('B', 'b'), ('C', 'c'), ('D', 'd'),
    ('E', 'e'), ('F', 'f'), ('G', 'g'), ('H', 'h'), ('I', 'i'), ('J', 'j'),
    ('K', 'k'), ('L', 'l'), ('M', 'm'), ('N', 'n'), ('O', 'o'), ('P', 'p'),
    ('Q', 'q'), ('R', 'r'), ('S', 's'), ('T', 't'), ('U', 'u'), ('V', 'v'),
    ('W', 'w'), ('X', 'x'), ('Y', 'y'), ('Z', 'z')]

/-- Case analysis on `goToLower`: either the character is one of the 26
uppercase ASCII letters (each mapped to its lowercase form), or it is left
unchanged. -/
theorem goToLower_eq_self_or_upper (c : Char) :
    goToLower c = c ∨ (c, goToLower c) ∈ upperLowerPairs := by
  by_cases h1 : c = 'A'; · subst h1; right; decide
  by_cases h2 : c = 'B'; · subst h2; right; decide
  by_cases h3 : c = 'C'; · subst h3; right; decide
  by_cases h4 : c = 'D'; · subst h4; right; decide
  by_cases h5 : c = 'E'; · subst h5; right; decide
  by_cases h6 : c = 'F'; · subst h6; right; decide
  by_cases h7 : c = 'G'; · subst h7; right; decide
  by_cases h8 : c = 'H'; · subst h8; right; decide
  by_cases h9 : c = 'I'; · subst h9; right; decide
  by_cases h10 : c = 'J'; · subst h10; right; decide
  by_cases h11 : c = 'K'; · subst h11; right; decide
  by_cases h12 : c = 'L'; · subst h12; right; decide
  by_cases h13 : c = 'M'; · subst h13; right; decide
  by_cases h14 : c = 'N'; · subst h14; right; decide
  by_cases h15 : c = 'O'; · subst h15; right; decide
  by_cases h16 : c = 'P'; · subst h16; right; decide
  by_cases h17 : c = 'Q'; · subst h17; right; decide
  by_cases h18 : c = 'R'; · subst h18; right; decide
  by_cases h19 : c = 'S'; · subst h19; right; decide
  by_cases h20 : c = 'T'; · subst h20; right; decide
  by_cases h21 : c = 'U'; · subst h21; right; decide
  by_cases h22 : c = 'V'; · subst h22; right; decide
  by_cases h23 : c = 'W'; · subst h23; right; decide
  by_cases h24 : c = 'X'; · subst h24; right; decide
  by_cases h25 : c = 'Y'; · subst h25; right; decide
  by_cases h26 : c = 'Z'; · subst h26; right; decide
  left
  unfold goToLower
  rw [if_neg h1, if_neg h2, if_neg h3, if_neg h4, if_neg h5, if_neg h6,
    if_neg h7, if_neg h8, if_neg h9, if_neg h10, if_neg h11, if_neg h12,
    if_neg h13, if_neg h14, if_neg h15, if_neg h16, if_neg h17, if_neg h18,
    if_neg h19, if_neg h20, if_neg h21, if_neg h22, if_neg h23, if_neg h24,
    if_neg h25, if_neg h26]

theorem goIsSpace_goToLower (c : Char) : goIsSpace (goToLower c) = goIsSpace c := by
  rcases goToLower_eq_self_or_upper c with h | h
  · rw [h]
  · have hall : ∀ p ∈ upperLowerPairs, goIsSpace p.2 = goIsSpace p.1 := by decide
    simpa using hall _ h

theorem goToLower_eq_dash_iff (c : Char) : goToLower c = '-' ↔ c = '-' := by
  rcases goToLower_eq_self_or_upper c with h | h
  · rw [h]
  · have hall : ∀ p ∈ upperLowerPairs, (p.2 = '-' ↔ p.1 = '-') := by decide
    simpa using hall _ h

theorem strIndex_lower (a : Str) : strIndex '-' (lowerStr a) = strIndex '-' a := by
  induction a with
  | nil => rfl
  | cons x t ih =>
    by_cases hx : x = '-'
    · subst hx
      simp [lowerStr, strIndex, goToLower]
    · have hlx : ¬ goToLower x = '-' := fun h => hx ((goToLower_eq_dash_iff x).mp h)
      simp only [lowerStr, List.map_cons, strIndex, if_neg hlx, if_neg hx]
      rw [show (List.map goToLower t) = lowerStr t from rfl, ih]

theorem goTrim_lower (s : Str) : goTrim (lowerStr s) = lowerStr (goTrim s) := by
  have hpf : (goIsSpace ∘ goToLower) = goIsSpace := funext goIsSpace_goToLower
  unfold goTrim lowerStr
  rw [List.dropWhile_map, hpf, ← List.map_reverse, List.dropWhile_map, hpf,
    ← List.map_reverse]

/-- A trimmed string is non-empty exactly when the original has a
non-whitespace character. -/
theorem goTrim_pos_iff_any (x : Str) :
    decide (0 < (goTrim x).length) = x.any (fun c => !goIsSpace c) := by
  rw [Bool.eq_iff_iff, decide_eq_true_iff, List.length_pos, Ne,
    goTrim_eq_nil_iff, List.any_eq_true]
  constructor
  · intro h
    by_contra hc
    push_neg at hc
    exact h (fun c hcm => by
      have := hc c hcm
      simpa using this)
  · rintro ⟨c, hcm, hcs⟩ hall
    have := hall c hcm
    simp [this] at hcs

/-- `validateAlbumFormat` agrees everywhere with the specification's
characterisation of the format rule. -/
theorem validateAlbumFormat_eq_spec (l : Str) :
    validateAlbumFormat l = validFormatSpec l := by
  simp only [validateAlbumFormat, validFormatSpec]
  cases h : strIndex '-' (goTrim l) with
  | none => simp [h]
  | some i =>
    simp only [h]
    by_cases h0 : i = 0
    · simp [h0]
    · by_cases h1 : i = (goTrim l).length - 1
      · have hdrop : (goTrim l).drop (i + 1) = [] :=
          List.drop_eq_nil_of_le (by omega)
        simp only [if_neg h0, if_pos h1, hdrop, List.any_nil, Bool.and_false]
      · simp only [if_neg h0, if_neg h1]
        rw [goTrim_pos_iff_any, goTrim_pos_iff_any]

/-- The format check is invariant under ASCII case folding. -/
theorem validateAlbumFormat_lower (s : Str) :
    validateAlbumFormat (lowerStr s) = validateAlbumFormat s := by
  rw [validateAlbumFormat_eq_spec, validateAlbumFormat_eq_spec]
  simp only [validFormatSpec]
  rw [goTrim_lower, strIndex_lower]
  cases h : strIndex '-' (goTrim s) with
  | none => simp [h]
  | some i =>
    have htake : (lowerStr (goTrim s)).take i = lowerStr ((goTrim s).take i) := by
      simp [lowerStr, List.map_take]
    have hdrop : (lowerStr (goTrim s)).drop (i + 1) =
        lowerStr ((goTrim s).drop (i + 1)) := by
      simp [lowerStr, List.map_drop]
    have hany : ∀ x : Str, (lowerStr x).any (fun c => !goIsSpace c) =
        x.any (fun c => !goIsSpace c) := by
      intro x
      simp only [lowerStr, List.any_map]
      congr 1
      funext c
      simp [Function.comp, goIsSpace_goToLower]
    simp only [h, htake, hdrop, hany]

/-! ## The queue service

Operations are embedded as pure functions.  The queue file is represented by
the list of lines `ReadLines` yields for it; each operation returns its
result together with the list of whole-file `WriteLines` calls it performs,
in order.  `fileAfter` interprets such a write trace: each `WriteLines`
replaces the file's content entirely. -/

/-- The two error kinds `addAlbumCheck` distinguishes (src/unnamed/part_003
lines 54-67): a generic "invalid format" error and an
"album ... already exists" duplicate error. -/
inductive AddErr where
  | invalidFormat
  | duplicate
deriving DecidableEq

/-- Embedding of `addAlbumCheck` (src/unnamed/part_003 lines 54-67): trim
the title, validate its format, then look the lowercased trimmed title up in
the duplicate index (the keys of `existingAlbumsMap`). -/
def addAlbumCheck (albumTitle : Str) (existingAlbumsMap : List Str) :
    Option AddErr :=
  let trimmedTitle := goTrim albumTitle
  if !validateAlbumFormat trimmedTitle then some .invalidFormat
  else if lowerStr trimmedTitle ∈ existingAlbumsMap then some .duplicate
  else none

/-- Embedding of `AddAlbum` (src/unnamed/part_003 lines 71-104):
read the queue, build the duplicate index from it, run `addAlbumCheck`,
and on success append the trimmed title and write the whole queue back.
The second component is the trace of `WriteLines` calls. -/
def AddAlbum (existingAlbums : List Str) (albumTitle : Str) :
    Except AddErr Unit × List (List Str) :=
  let existingAlbumsMap := existingAlbums.map lowerTrim
  match addAlbumCheck albumTitle existingAlbumsMap with
  | some e => (Except.error e, [])
  | none => (Except.ok (), [existingAlbums ++ [goTrim albumTitle]])

/-- The content of a file after a trace of whole-file writes: each
`WriteLines` call replaces the content entirely. -/
def fileAfter (file : List Str) (writes : List (List Str)) : List Str :=
  writes.foldl (fun _ w => w) file

/-- Loop state of `ImportAlbums` (src/internal/queue/queue.go lines 78-115):
the duplicate-index keys, the accumulated new albums, and the two
counters. -/
structure LoopSt where
  idx : List Str
  acc : List Str
  added : Nat
  skipped : Nat

/-- Embedding of the per-line loop of `ImportAlbums`
(src/internal/queue/queue.go lines 89-115, equivalently src/unnamed/part_003
lines 143-161): skip blank lines without counting; count a line that fails
the format check as skipped; count a line already in the duplicate index as
skipped; otherwise append the trimmed line, extend the index, and count it
as added. -/
def importLoop (st : LoopSt) : List Str → LoopSt
  | [] => st
  | album :: rest =>
    let t := goTrim album
    if t = [] then importLoop st rest
    else if !validateAlbumFormat t then
      importLoop { st with skipped := st.skipped + 1 } rest
    else if lowerStr t ∈ st.idx then
      importLoop { st with skipped := st.skipped + 1 } rest
    else
      importLoop { idx := st.idx ++ [lowerStr t], acc := st.acc ++ [t],
                   added := st.added + 1, skipped := st.skipped } rest

/-- Result of the two-counter `ImportAlbums` of the source: the counters,
the queue file content after the call, and the trace of queue-file
writes. -/
structure ImportRes where
  added : Nat
  skipped : Nat
  toAdd : List Str
  queue : List Str
  writes : List (List Str)

/-- Embedding of `ImportAlbums` (src/internal/queue/queue.go lines 54-127,
equivalently src/unnamed/part_003 lines 108-172): seed the duplicate index
with the lowercased trimmed existing entries, run the loop over the import
lines, and write `existingAlbums ++ newAlbums` once if any album was added
(an empty import source yields the same result as a loop over no lines:
zero counters and no write). -/
def ImportAlbums (existingAlbums importLines : List Str) : ImportRes :=
  let st := importLoop ⟨existingAlbums.map lowerTrim, [], 0, 0⟩ importLines
  if st.acc = [] then
    { added := st.added, skipped := st.skipped, toAdd := st.acc,
      queue := existingAlbums, writes := [] }
  else
    { added := st.added, skipped := st.skipped, toAdd := st.acc,
      queue := existingAlbums ++ st.acc, writes := [existingAlbums ++ st.acc] }

/-- Loop state of the three-counter import: duplicate-index keys,
accumulated new albums, and the three counters. -/
structure Loop3St where
  idx : List Str
  acc : List Str
  added : Nat
  dup : Nat
  invalid : Nat

/-- Modelled from the spec: the per-line loop of the three-counter
`import_albums` of spec section 4.4, whose Go implementation is present in
the repository only through its tests (src/unnamed/part_004) — "validate
format; if invalid, increment skipped_invalid and continue (do not insert
into duplicate index). If valid, case-insensitive-check against the
duplicate index; if present, increment skipped_duplicate and continue.
Otherwise append to the to-add list, insert into the duplicate index,
increment added."  Blank lines never reach the loop (the Line Store yields
only non-blank trimmed lines); a blank line is skipped without counting. -/
def import3Loop (st : Loop3St) : List Str → Loop3St
  | [] => st
  | line :: rest =>
    let t := goTrim line
    if t = [] then import3Loop st rest
    else if !validateAlbumFormat t then
      import3Loop { st with invalid := st.invalid + 1 } rest
    else if lowerStr t ∈ st.idx then
      import3Loop { st with dup := st.dup + 1 } rest
    else
      import3Loop { idx := st.idx ++ [lowerStr t], acc := st.acc ++ [t],
                    added := st.added + 1, dup := st.dup,
                    invalid := st.invalid } rest

/-- Result of the three-counter import: the three counters, the to-add
list, the queue content after the call, and the queue-file write trace. -/
structure Import3Res where
  added : Nat
  dup : Nat
  invalid : Nat
  toAdd : List Str
  queue : List Str
  writes : List (List Str)

/-- Modelled from the spec: `import_albums(source_path) ->
(added, skipped_duplicate, skipped_invalid)` of spec section 4.4, whose
three-counter Go implementation is present only through its tests
(src/unnamed/part_004).  Seed the duplicate index from the current queue,
run the loop over the source lines in file order, and — only when
`added > 0` — perform one Line Store write of
`original queue ++ to-add list`. -/
def ImportAlbums3 (existingAlbums sourceLines : List Str) : Import3Res :=
  let st := import3Loop ⟨existingAlbums.map lowerTrim, [], 0, 0, 0⟩ sourceLines
  if 0 < st.added then
    { added := st.added, dup := st.dup, invalid := st.invalid,
      toAdd := st.acc, queue := existingAlbums ++ st.acc,
      writes := [existingAlbums ++ st.acc] }
  else
    { added := st.added, dup := st.dup, invalid := st.invalid,
      toAdd := st.acc, queue := existingAlbums, writes := [] }

/-- The two file-backed sequences `get_next_album` touches: the active
queue file and the archive file, each as the line list its Line Store
holds. -/
structure FS where
  queue : List Str
  archive : List Str
deriving DecidableEq

/-- Failure modes of `get_next_album` (spec section 4.5). -/
inductive NextErr where
  | queueEmpty
  | archiveWriteFailed
deriving DecidableEq

/-- Modelled from the spec: `get_next_album()` of spec section 4.5, whose
Go implementation (`GetNextAlbum`) is present in the repository only
through its tests (src/unnamed/part_004) and its CLI caller.  `r` stands in
for the injected source of randomness (the selected index is `r` reduced
modulo the queue length, so every index is reachable); `archiveOk` is the
fault model for the archive Line Store write.  Steps, in order: read the
queue and fail with `QueueEmpty` if it is empty (no mutation); select an
entry; attempt the archive read-modify-write append; if it fails, fail with
`ArchiveWriteFailed` leaving both files untouched — the queue write must
not happen; on success write the remaining queue back and return the
selection. -/
def GetNextAlbum (fs : FS) (r : Nat) (archiveOk : Bool) :
    Except NextErr Str × FS :=
  if h : fs.queue = [] then (Except.error .queueEmpty, fs)
  else
    let i := r % fs.queue.length
    let selected := fs.queue.get ⟨i, Nat.mod_lt r (List.length_pos.mpr h)⟩
    if archiveOk then
      (Except.ok selected, ⟨fs.queue.eraseIdx i, fs.archive ++ [selected]⟩)
    else
      (Except.error .archiveWriteFailed, fs)

/-! ## Claim C5 -/

/-- C5: the format validator returns false for `""`, `"-"`, `"- Album"`,
`"Artist -"`, `"   - Album"`, `"Artist -   "`, true for `"Artist - Album"`
and `"A - B - C"`; and acceptance is decided by trimming the input and
splitting at the first dash only, requiring non-whitespace content strictly
before and after that first dash (`validFormatSpec`). -/
theorem validateAlbumFormat_boundary_and_spec :
    validateAlbumFormat "".toList = false ∧
    validateAlbumFormat "-".toList = false ∧
    validateAlbumFormat "- Album".toList = false ∧
    validateAlbumFormat "Artist -".toList = false ∧
    validateAlbumFormat "   - Album".toList = false ∧
    validateAlbumFormat "Artist -   ".toList = false ∧
    validateAlbumFormat "Artist - Album".toList = true ∧
    validateAlbumFormat "A - B - C".toList = true ∧
    ∀ l : Str, validateAlbumFormat l = validFormatSpec l := by
  refine ⟨?_, ?_, ?_, ?_, ?_, ?_, ?_, ?_, validateAlbumFormat_eq_spec⟩
  all_goals decide

/-! ## Claims C9, C7, C2, C3, C10 -/

/-- C9: in `add_album` the format check runs strictly before the duplicate
check, so an input failing format validation is always reported as
`InvalidFormat` — never as a duplicate — no matter what the queue contains,
and nothing is written. -/
theorem addAlbum_formatCheckedFirst (existingAlbums : List Str) (albumTitle : Str)
    (hinv : validateAlbumFormat albumTitle = false) :
    (AddAlbum existingAlbums albumTitle).1 = Except.error AddErr.invalidFormat ∧
    (AddAlbum existingAlbums albumTitle).2 = [] := by
  have ht : validateAlbumFormat (goTrim albumTitle) = false := by
    rw [validateAlbumFormat_goTrim]; exact hinv
  unfold AddAlbum addAlbumCheck
  simp [ht]

/-- Witness for C9, on an input that fails the format check while
case-insensitively matching an existing queue entry: it is still reported
as `InvalidFormat`, not as a duplicate. -/
theorem addAlbum_formatCheckedFirst_witness :
    lowerTrim "NO DASH".toList ∈ ["no dash".toList].map lowerTrim ∧
    (AddAlbum ["no dash".toList] "NO DASH".toList).1 =
        Except.error AddErr.invalidFormat ∧
    (AddAlbum ["no dash".toList] "NO DASH".toList).2 = [] :=
  ⟨by decide,
    addAlbum_formatCheckedFirst ["no dash".toList] "NO DASH".toList (by decide)⟩

/-- C7: `add_album` writes only on success — exactly one whole-file write
appending the trimmed input to the end of the queue — and on any failure it
performs no write, leaving the queue file unchanged. -/
theorem addAlbum_writeDiscipline (existingAlbums : List Str) (albumTitle : Str) :
    ((AddAlbum existingAlbums albumTitle).1 = Except.ok () →
      (AddAlbum existingAlbums albumTitle).2 =
          [existingAlbums ++ [goTrim albumTitle]] ∧
      fileAfter existingAlbums (AddAlbum existingAlbums albumTitle).2 =
        existingAlbums ++ [goTrim albumTitle]) ∧
    (∀ e, (AddAlbum existingAlbums albumTitle).1 = Except.error e →
      (AddAlbum existingAlbums albumTitle).2 = [] ∧
      fileAfter existingAlbums (AddAlbum existingAlbums albumTitle).2 =
        existingAlbums) := by
  simp only [AddAlbum]
  cases h : addAlbumCheck albumTitle (existingAlbums.map lowerTrim) with
  | none =>
    simp only [h]
    exact ⟨fun _ => by constructor <;> simp [fileAfter], fun e he => by simp at he⟩
  | some e =>
    simp only [h]
    exact ⟨fun hok => by simp at hok,
      fun e2 he2 => by constructor <;> simp [fileAfter]⟩

/-- Witness for C7: a successful add performs the single append write; a
duplicate add performs none. -/
theorem addAlbum_writeDiscipline_witness :
    ((AddAlbum [] "A - B".toList).2 = [[] ++ [goTrim "A - B".toList]] ∧
      fileAfter [] (AddAlbum [] "A - B".toList).2 = [] ++ [goTrim "A - B".toList]) ∧
    ((AddAlbum ["A - B".toList] "A - B".toList).2 = [] ∧
      fileAfter ["A - B".toList] (AddAlbum ["A - B".toList] "A - B".toList).2 =
        ["A - B".toList]) :=
  ⟨(addAlbum_writeDiscipline [] "A - B".toList).1 (by rfl),
    (addAlbum_writeDiscipline ["A - B".toList] "A - B".toList).2
      AddErr.duplicate (by rfl)⟩

/-- C2: on a non-empty queue, if the archive write fails `get_next_album`
fails with `ArchiveWriteFailed` and the queue file content after the call
is identical to its pre-call content (the whole file state is untouched —
the queue write never happens). -/
theorem getNextAlbum_archiveFailureRollback (fs : FS) (r : Nat)
    (h : fs.queue ≠ []) :
    (GetNextAlbum fs r false).1 = Except.error NextErr.archiveWriteFailed ∧
    (GetNextAlbum fs r false).2.queue = fs.queue ∧
    (GetNextAlbum fs r false).2 = fs := by
  unfold GetNextAlbum
  rw [dif_neg h]
  exact ⟨rfl, rfl, rfl⟩

/-- Witness for C2 on the three-element queue of the spec's example. -/
theorem getNextAlbum_archiveFailureRollback_witness :
    (GetNextAlbum ⟨["A - 1".toList, "B - 2".toList, "C - 3".toList], []⟩ 1
        false).1 = Except.error NextErr.archiveWriteFailed ∧
    (GetNextAlbum ⟨["A - 1".toList, "B - 2".toList, "C - 3".toList], []⟩ 1
        false).2.queue = ["A - 1".toList, "B - 2".toList, "C - 3".toList] ∧
    (GetNextAlbum ⟨["A - 1".toList, "B - 2".toList, "C - 3".toList], []⟩ 1
        false).2 = ⟨["A - 1".toList, "B - 2".toList, "C - 3".toList], []⟩ :=
  getNextAlbum_archiveFailureRollback
    ⟨["A - 1".toList, "B - 2".toList, "C - 3".toList], []⟩ 1 (by decide)

/-- C3: on a non-empty queue a successful `get_next_album` returns an entry
of the pre-call queue, the post-call queue is the pre-call queue with
exactly that entry removed (all other entries kept in their original
relative order), and the entry becomes the most recent archive entry; on an
empty (or missing, read as empty) queue it fails with `QueueEmpty` and
mutates nothing. -/
theorem getNextAlbum_successAndEmpty (fs : FS) (r : Nat) :
    (∀ h : fs.queue ≠ [],
      (GetNextAlbum fs r true).1 =
        Except.ok (fs.queue.get ⟨r % fs.queue.length,
          Nat.mod_lt r (List.length_pos.mpr h)⟩) ∧
      fs.queue.get ⟨r % fs.queue.length,
          Nat.mod_lt r (List.length_pos.mpr h)⟩ ∈ fs.queue ∧
      (GetNextAlbum fs r true).2.queue =
        fs.queue.take (r % fs.queue.length) ++
          fs.queue.drop (r % fs.queue.length + 1) ∧
      fs.queue =
        fs.queue.take (r % fs.queue.length) ++
          fs.queue.get ⟨r % fs.queue.length,
            Nat.mod_lt r (List.length_pos.mpr h)⟩ ::
            fs.queue.drop (r % fs.queue.length + 1) ∧
      (GetNextAlbum fs r true).2.archive =
        fs.archive ++ [fs.queue.get ⟨r % fs.queue.length,
          Nat.mod_lt r (List.length_pos.mpr h)⟩]) ∧
    (fs.queue = [] →
      (GetNextAlbum fs r true).1 = Except.error NextErr.queueEmpty ∧
      (GetNextAlbum fs r true).2 = fs) := by
  constructor
  · intro h
    unfold GetNextAlbum
    rw [dif_neg h]
    refine ⟨rfl, List.get_mem _ _ _, ?_, ?_, rfl⟩
    · simp [List.eraseIdx_eq_take_drop_succ]
    · have hlt : r % fs.queue.length < fs.queue.length :=
        Nat.mod_lt r (List.length_pos.mpr h)
      conv_lhs => rw [← List.take_append_drop (r % fs.queue.length) fs.queue]
      rw [List.drop_eq_getElem_cons hlt]
      rfl
  · intro h
    unfold GetNextAlbum
    rw [dif_pos h]
    exact ⟨rfl, rfl⟩

/-- Witness for C3 on the spec's example queue, selection index 1. -/
theorem getNextAlbum_successAndEmpty_witness :
    (GetNextAlbum ⟨["A - 1".toList, "B - 2".toList, "C - 3".toList], []⟩ 1
        true).1 = Except.ok "B - 2".toList ∧
    (GetNextAlbum ⟨["A - 1".toList, "B - 2".toList, "C - 3".toList], []⟩ 1
        true).2.queue = ["A - 1".toList, "C - 3".toList] ∧
    (GetNextAlbum ⟨["A - 1".toList, "B - 2".toList, "C - 3".toList], []⟩ 1
        true).2.archive = ["B - 2".toList] ∧
    (GetNextAlbum ⟨[], ["X - Y".toList]⟩ 0 true).1 =
        Except.error NextErr.queueEmpty ∧
    (GetNextAlbum ⟨[], ["X - Y".toList]⟩ 0 true).2 = ⟨[], ["X - Y".toList]⟩ := by
  have h1 := (getNextAlbum_successAndEmpty
    ⟨["A - 1".toList, "B - 2".toList, "C - 3".toList], []⟩ 1).1 (by decide)
  have h2 := (getNextAlbum_successAndEmpty ⟨[], ["X - Y".toList]⟩ 0).2 rfl
  refine ⟨?_, ?_, ?_, h2.1, h2.2⟩
  · rw [h1.1]; rfl
  · rw [h1.2.2.1]; rfl
  · rw [h1.2.2.2.2]; rfl

/-- C10: the queue that `import_albums` writes back always begins with
exactly the lines read from the existing queue file, in order and
unmodified — pre-existing entries are never removed, re-normalised, or
deduplicated, no matter what the stored file contains. -/
theorem importAlbums_preservesExisting (existingAlbums importLines : List Str) :
    (ImportAlbums existingAlbums importLines).queue.take existingAlbums.length =
        existingAlbums ∧
    (ImportAlbums existingAlbums importLines).queue =
      existingAlbums ++ (ImportAlbums existingAlbums importLines).toAdd := by
  unfold ImportAlbums
  by_cases h : (importLoop ⟨existingAlbums.map lowerTrim, [], 0, 0⟩
      importLines).acc = []
  · simp only [h, if_pos]
    exact ⟨by simp, by simp [h]⟩
  · simp only [h, if_neg h]
    exact ⟨List.take_left _ _, rfl⟩

/-! ## Claims C1 and C8 -/

/-- A line is non-blank when trimming leaves something. -/
def nonBlank (l : Str) : Bool := decide (goTrim l ≠ [])

theorem importLoop_counterSum (b : List Str) : ∀ st : LoopSt,
    (importLoop st b).added + (importLoop st b).skipped =
      st.added + st.skipped + (b.filter nonBlank).length := by
  induction b with
  | nil => intro st; simp [importLoop]
  | cons album rest ih =>
    intro st
    simp only [importLoop]
    by_cases hb : goTrim album = []
    · have hnb : nonBlank album = false := by simp [nonBlank, hb]
      rw [if_pos hb, List.filter_cons, hnb]
      simp only [Bool.false_eq_true, if_false]
      exact ih st
    · have hnb : nonBlank album = true := by simp [nonBlank, hb]
      rw [if_neg hb, List.filter_cons, hnb]
      simp only [if_true, List.length_cons]
      by_cases hv : validateAlbumFormat (goTrim album) = true
      · rw [if_neg (show ¬ ((!validateAlbumFormat (goTrim album)) = true) by
          simp [hv])]
        by_cases hd : lowerStr (goTrim album) ∈ st.idx
        · rw [if_pos hd]
          have hrec := ih ⟨st.idx, st.acc, st.added, st.skipped + 1⟩
          simp at hrec
          omega
        · rw [if_neg hd]
          have hrec := ih ⟨st.idx ++ [lowerStr (goTrim album)],
            st.acc ++ [goTrim album], st.added + 1, st.skipped⟩
          simp at hrec
          omega
      · have hvf : validateAlbumFormat (goTrim album) = false := by
          simpa using hv
        have hcond : (!validateAlbumFormat (goTrim album)) = true := by
          rw [hvf]; rfl
        rw [if_pos hcond]
        have hrec := ih ⟨st.idx, st.acc, st.added, st.skipped + 1⟩
        simp at hrec
        omega

theorem import3Loop_counterSum (b : List Str) : ∀ st : Loop3St,
    (import3Loop st b).added + (import3Loop st b).dup +
        (import3Loop st b).invalid =
      st.added + st.dup + st.invalid + (b.filter nonBlank).length := by
  induction b with
  | nil => intro st; simp [import3Loop]
  | cons line rest ih =>
    intro st
    simp only [import3Loop]
    by_cases hb : goTrim line = []
    · have hnb : nonBlank line = false := by simp [nonBlank, hb]
      rw [if_pos hb, List.filter_cons, hnb]
      simp only [Bool.false_eq_true, if_false]
      exact ih st
    · have hnb : nonBlank line = true := by simp [nonBlank, hb]
      rw [if_neg hb, List.filter_cons, hnb]
      simp only [if_true, List.length_cons]
      by_cases hv : validateAlbumFormat (goTrim line) = true
      · rw [if_neg (show ¬ ((!validateAlbumFormat (goTrim line)) = true) by
          simp [hv])]
        by_cases hd : lowerStr (goTrim line) ∈ st.idx
        · rw [if_pos hd]
          have hrec := ih ⟨st.idx, st.acc, st.added, st.dup + 1, st.invalid⟩
          simp at hrec
          omega
        · rw [if_neg hd]
          have hrec := ih ⟨st.idx ++ [lowerStr (goTrim line)],
            st.acc ++ [goTrim line], st.added + 1, st.dup, st.invalid⟩
          simp at hrec
          omega
      · have hvf : validateAlbumFormat (goTrim line) = false := by
          simpa using hv
        have hcond : (!validateAlbumFormat (goTrim line)) = true := by
          rw [hvf]; rfl
        rw [if_pos hcond]
        have hrec := ih ⟨st.idx, st.acc, st.added, st.dup, st.invalid + 1⟩
        simp at hrec
        omega

/-- C1: the three counters of `import_albums` always sum to the number of
non-blank lines of the import batch; the two counters of the in-tree
two-counter `ImportAlbums` satisfy the merged form of the same law. -/
theorem importAlbums_counterSum (existingAlbums sourceLines : List Str) :
    (ImportAlbums3 existingAlbums sourceLines).added +
        (ImportAlbums3 existingAlbums sourceLines).dup +
        (ImportAlbums3 existingAlbums sourceLines).invalid =
      (sourceLines.filter nonBlank).length ∧
    (ImportAlbums existingAlbums sourceLines).added +
        (ImportAlbums existingAlbums sourceLines).skipped =
      (sourceLines.filter nonBlank).length := by
  constructor
  · have h := import3Loop_counterSum sourceLines
      ⟨existingAlbums.map lowerTrim, [], 0, 0, 0⟩
    simp only [ImportAlbums3]
    split
    · simpa using h
    · simpa using h
  · have h := importLoop_counterSum sourceLines
      ⟨existingAlbums.map lowerTrim, [], 0, 0⟩
    simp only [ImportAlbums]
    split
    · simpa using h
    · simpa using h

theorem import3Loop_acc (b : List Str) : ∀ st : Loop3St,
    ∃ d, (import3Loop st b).acc = st.acc ++ d ∧ d.Sublist (b.map goTrim) := by
  induction b with
  | nil => intro st; exact ⟨[], by simp [import3Loop]⟩
  | cons line rest ih =>
    intro st
    simp only [import3Loop]
    by_cases hb : goTrim line = []
    · rw [if_pos hb]
      obtain ⟨d, hd1, hd2⟩ := ih st
      exact ⟨d, hd1, by simpa using hd2.cons (goTrim line)⟩
    · rw [if_neg hb]
      by_cases hv : validateAlbumFormat (goTrim line) = true
      · have hcond : ¬ ((!validateAlbumFormat (goTrim line)) = true) := by
          rw [hv]; simp
        rw [if_neg hcond]
        by_cases hdup : lowerStr (goTrim line) ∈ st.idx
        · rw [if_pos hdup]
          obtain ⟨d, hd1, hd2⟩ :=
            ih ⟨st.idx, st.acc, st.added, st.dup + 1, st.invalid⟩
          refine ⟨d, ?_, by simpa using hd2.cons (goTrim line)⟩
          simpa using hd1
        · rw [if_neg hdup]
          obtain ⟨d, hd1, hd2⟩ := ih ⟨st.idx ++ [lowerStr (goTrim line)],
            st.acc ++ [goTrim line], st.added + 1, st.dup, st.invalid⟩
          refine ⟨goTrim line :: d, ?_, by simpa using hd2.cons₂ (goTrim line)⟩
          simp at hd1
          simpa using hd1
      · have hvf : validateAlbumFormat (goTrim line) = false := by
          simpa using hv
        have hcond : (!validateAlbumFormat (goTrim line)) = true := by
          rw [hvf]; rfl
        rw [if_pos hcond]
        obtain ⟨d, hd1, hd2⟩ :=
          ih ⟨st.idx, st.acc, st.added, st.dup, st.invalid + 1⟩
        refine ⟨d, ?_, by simpa using hd2.cons (goTrim line)⟩
        simpa using hd1

/-- C8: `import_albums` writes the queue file at most once.  An empty
source yields `(0, 0, 0)` and no write; when `added = 0` no write
occurs and the queue file is untouched; when `added > 0` the single write
is the original queue followed by the newly added entries in source order
(each a trimmed source line).  The in-tree two-counter `ImportAlbums`
obeys the same write discipline. -/
theorem importAlbums_writeDiscipline (existingAlbums sourceLines : List Str) :
    (ImportAlbums3 existingAlbums sourceLines).writes.length ≤ 1 ∧
    (sourceLines = [] →
      (ImportAlbums3 existingAlbums sourceLines).added = 0 ∧
      (ImportAlbums3 existingAlbums sourceLines).dup = 0 ∧
      (ImportAlbums3 existingAlbums sourceLines).invalid = 0 ∧
      (ImportAlbums3 existingAlbums sourceLines).writes = []) ∧
    ((ImportAlbums3 existingAlbums sourceLines).added = 0 →
      (ImportAlbums3 existingAlbums sourceLines).writes = [] ∧
      (ImportAlbums3 existingAlbums sourceLines).queue = existingAlbums) ∧
    (0 < (ImportAlbums3 existingAlbums sourceLines).added →
      (ImportAlbums3 existingAlbums sourceLines).writes =
        [existingAlbums ++ (ImportAlbums3 existingAlbums sourceLines).toAdd] ∧
      (ImportAlbums3 existingAlbums sourceLines).queue =
        existingAlbums ++ (ImportAlbums3 existingAlbums sourceLines).toAdd ∧
      (ImportAlbums3 existingAlbums sourceLines).toAdd.Sublist
        (sourceLines.map goTrim)) ∧
    (ImportAlbums existingAlbums sourceLines).writes.length ≤ 1 ∧
    ((ImportAlbums existingAlbums sourceLines).toAdd = [] →
      (ImportAlbums existingAlbums sourceLines).writes = []) ∧
    ((ImportAlbums existingAlbums sourceLines).toAdd ≠ [] →
      (ImportAlbums existingAlbums sourceLines).writes =
        [existingAlbums ++ (ImportAlbums existingAlbums sourceLines).toAdd]) := by
  refine ⟨?_, ?_, ?_, ?_, ?_, ?_, ?_⟩
  · simp only [ImportAlbums3]
    split <;> simp
  · intro h
    subst h
    simp [ImportAlbums3, import3Loop]
  · intro h
    simp only [ImportAlbums3] at h ⊢
    by_cases hc : 0 < (import3Loop
        ⟨existingAlbums.map lowerTrim, [], 0, 0, 0⟩ sourceLines).added
    · rw [if_pos hc] at h
      simp at h
      omega
    · rw [if_neg hc]
      exact ⟨rfl, rfl⟩
  · intro h
    simp only [ImportAlbums3] at h ⊢
    by_cases hc : 0 < (import3Loop
        ⟨existingAlbums.map lowerTrim, [], 0, 0, 0⟩ sourceLines).added
    · rw [if_pos hc]
      obtain ⟨d, hd1, hd2⟩ := import3Loop_acc sourceLines
        ⟨existingAlbums.map lowerTrim, [], 0, 0, 0⟩
      rw [List.nil_append] at hd1
      refine ⟨rfl, rfl, ?_⟩
      simpa [hd1] using hd2
    · rw [if_neg hc] at h
      simp at h
      omega
  · simp only [ImportAlbums]
    split <;> simp
  · intro h
    simp only [ImportAlbums] at h ⊢
    split at h <;> simp_all
  · intro h
    simp only [ImportAlbums] at h ⊢
    split at h <;> simp_all

/-- Witness for C8: importing `["A - B", "A - B", "bad"]` into queue
`["C - D"]` adds one entry with one write; importing only invalid lines
writes nothing. -/
theorem importAlbums_writeDiscipline_witness :
    (0 < (ImportAlbums3 ["C - D".toList]
        ["A - B".toList, "A - B".toList, "bad".toList]).added ∧
      (ImportAlbums3 ["C - D".toList]
        ["A - B".toList, "A - B".toList, "bad".toList]).writes =
        [["C - D".toList] ++ (ImportAlbums3 ["C - D".toList]
          ["A - B".toList, "A - B".toList, "bad".toList]).toAdd]) ∧
    ((ImportAlbums3 ["C - D".toList] ["bad".toList]).added = 0 ∧
      (ImportAlbums3 ["C - D".toList] ["bad".toList]).writes = []) ∧
    (ImportAlbums3 ["C - D".toList] []).writes = [] := by
  refine ⟨⟨by decide, ?_⟩, ⟨by decide, ?_⟩, ?_⟩
  · exact ((importAlbums_writeDiscipline ["C - D".toList]
      ["A - B".toList, "A - B".toList, "bad".toList]).2.2.2.1 (by decide)).1
  · exact ((importAlbums_writeDiscipline ["C - D".toList]
      ["bad".toList]).2.2.1 (by decide)).1
  · exact ((importAlbums_writeDiscipline ["C - D".toList] []).2.1 rfl).2.2.2

/-! ## Claims C4 and C6 -/

/-- The case-insensitive uniqueness invariant of the queue: no two entries
share the same lowercased trimmed form. -/
def ciNodup (q : List Str) : Prop :=
  q.Pairwise (fun a b => lowerTrim a ≠ lowerTrim b)

instance (q : List Str) : Decidable (ciNodup q) := by
  unfold ciNodup
  infer_instance

/-- The number of entries of `q` that case-insensitively equal `s` (after
trimming). -/
def ciCount (q : List Str) (s : Str) : Nat :=
  (q.filter (fun e => lowerTrim e == lowerTrim s)).length

theorem ciFilter_nil_of_notMem (q : List Str) (s : Str)
    (h : lowerTrim s ∉ q.map lowerTrim) :
    q.filter (fun e => lowerTrim e == lowerTrim s) = [] := by
  induction q with
  | nil => rfl
  | cons a t ih =>
    have ha : lowerTrim a ≠ lowerTrim s := by
      intro he
      exact h (by rw [← he]; exact List.mem_map_of_mem _ (List.mem_cons_self a t))
    have ht : lowerTrim s ∉ t.map lowerTrim := by
      intro hm
      exact h (by simpa using Or.inr (by simpa using hm))
    rw [List.filter_cons, if_neg (by simpa using ha)]
    exact ih ht

theorem ciCount_eq_one_of_mem (q : List Str) (s : Str) (hnd : ciNodup q)
    (hm : lowerTrim s ∈ q.map lowerTrim) : ciCount q s = 1 := by
  induction q with
  | nil => simp at hm
  | cons a t ih =>
    rw [ciNodup, List.pairwise_cons] at hnd
    obtain ⟨ha, hnd'⟩ := hnd
    rcases List.mem_map.mp hm with ⟨e, he, heq⟩
    rcases List.mem_cons.mp he with rfl | het
    · have hfil : t.filter (fun x => lowerTrim x == lowerTrim s) = [] := by
        apply ciFilter_nil_of_notMem
        intro hmem
        rcases List.mem_map.mp hmem with ⟨x, hx, hxeq⟩
        exact ha x hx (by rw [hxeq, heq])
      unfold ciCount
      rw [List.filter_cons, if_pos (by simpa using heq), hfil]
      rfl
    · have hane : lowerTrim a ≠ lowerTrim s := by
        intro hae
        exact ha e het (by rw [hae, heq])
      unfold ciCount
      rw [List.filter_cons, if_neg (by simpa using hane)]
      exact ih hnd' (heq ▸ List.mem_map_of_mem _ het)

theorem ciNodup_append_singleton (q : List Str) (x : Str)
    (hnd : ciNodup q) (hx : lowerTrim x ∉ q.map lowerTrim) :
    ciNodup (q ++ [x]) := by
  rw [ciNodup, List.pairwise_append]
  refine ⟨hnd, List.pairwise_singleton _ _, ?_⟩
  intro a ha b hb
  rcases List.mem_singleton.mp hb with rfl
  intro he
  exact hx (he ▸ List.mem_map_of_mem _ ha)

theorem addAlbumCheck_none_iff (t : Str) (m : List Str) :
    addAlbumCheck t m = none ↔
      validateAlbumFormat t = true ∧ lowerTrim t ∉ m := by
  simp only [addAlbumCheck]
  rw [validateAlbumFormat_goTrim]
  by_cases hv : validateAlbumFormat t = true
  · rw [hv]
    simp only [Bool.not_true, Bool.false_eq_true, if_false]
    by_cases hm : lowerStr (goTrim t) ∈ m
    · simp [if_pos hm, hv]
      exact hm
    · simp [if_neg hm, hv]
      exact hm
  · have hvf : validateAlbumFormat t = false := by simpa using hv
    rw [hvf]
    simp

/-- A string that passes the format check does not trim to nothing. -/
theorem goTrim_ne_nil_of_valid (s : Str)
    (h : validateAlbumFormat s = true) : goTrim s ≠ [] := by
  intro hnil
  simp [validateAlbumFormat, hnil, strIndex] at h

theorem importLoop_nodup (b : List Str) : ∀ (st : LoopSt) (base : List Str),
    st.idx = (base ++ st.acc).map lowerTrim →
    ciNodup (base ++ st.acc) →
    (importLoop st b).idx = (base ++ (importLoop st b).acc).map lowerTrim ∧
      ciNodup (base ++ (importLoop st b).acc) := by
  induction b with
  | nil => intro st base h1 h2; exact ⟨h1, h2⟩
  | cons album rest ih =>
    intro st base h1 h2
    simp only [importLoop]
    by_cases hb : goTrim album = []
    · rw [if_pos hb]
      exact ih st base h1 h2
    · rw [if_neg hb]
      by_cases hv : validateAlbumFormat (goTrim album) = true
      · have hcond : ¬ ((!validateAlbumFormat (goTrim album)) = true) := by
          rw [hv]; simp
        rw [if_neg hcond]
        by_cases hd : lowerStr (goTrim album) ∈ st.idx
        · rw [if_pos hd]
          exact ih ⟨st.idx, st.acc, st.added, st.skipped + 1⟩ base h1 h2
        · rw [if_neg hd]
          have hlt : lowerTrim (goTrim album) = lowerStr (goTrim album) := by
            simp only [lowerTrim, goTrim_idem]
          have hnotm : lowerTrim (goTrim album) ∉
              (base ++ st.acc).map lowerTrim := by
            rw [hlt, ← h1]; exact hd
          refine ih ⟨st.idx ++ [lowerStr (goTrim album)],
            st.acc ++ [goTrim album], st.added + 1, st.skipped⟩ base ?_ ?_
          · show st.idx ++ [lowerStr (goTrim album)] =
              (base ++ (st.acc ++ [goTrim album])).map lowerTrim
            rw [← List.append_assoc, List.map_append, ← h1]
            simp [hlt]
          · show ciNodup (base ++ (st.acc ++ [goTrim album]))
            rw [← List.append_assoc]
            exact ciNodup_append_singleton _ _ h2 hnotm
      · have hvf : validateAlbumFormat (goTrim album) = false := by
          simpa using hv
        have hcond : (!validateAlbumFormat (goTrim album)) = true := by
          rw [hvf]; rfl
        rw [if_pos hcond]
        exact ih ⟨st.idx, st.acc, st.added, st.skipped + 1⟩ base h1 h2

/-- C4: from any queue state satisfying the case-insensitive uniqueness
invariant, both mutating operations preserve it (`add_album` on success,
`import_albums` always); and two copies of the same new album inside one
batch collapse to a single insertion, the second copy being counted
as a duplicate. -/
theorem mutatingOps_preserve_ciNodup (q : List Str) (s : Str) (b : List Str) :
    (ciNodup q → (AddAlbum q s).1 = Except.ok () →
      ciNodup (fileAfter q (AddAlbum q s).2)) ∧
    (ciNodup q → ciNodup (ImportAlbums q b).queue) ∧
    (validateAlbumFormat s = true → lowerTrim s ∉ q.map lowerTrim →
      (ImportAlbums3 q [s, s]).added = 1 ∧
      (ImportAlbums3 q [s, s]).dup = 1 ∧
      (ImportAlbums3 q [s, s]).invalid = 0 ∧
      ciCount (ImportAlbums3 q [s, s]).queue s = 1) := by
  refine ⟨?_, ?_, ?_⟩
  · intro hnd hok
    simp only [AddAlbum] at hok ⊢
    cases hchk : addAlbumCheck s (q.map lowerTrim) with
    | some e => rw [hchk] at hok; simp at hok
    | none =>
      obtain ⟨hv, hm⟩ := (addAlbumCheck_none_iff s (q.map lowerTrim)).mp hchk
      show ciNodup (q ++ [goTrim s])
      apply ciNodup_append_singleton q (goTrim s) hnd
      rw [lowerTrim_goTrim]
      exact hm
  · intro hnd
    have h := importLoop_nodup b ⟨q.map lowerTrim, [], 0, 0⟩ q
      (by simp) (by simpa using hnd)
    simp only [ImportAlbums]
    by_cases hacc : (importLoop ⟨q.map lowerTrim, [], 0, 0⟩ b).acc = []
    · rw [if_pos hacc]
      exact hnd
    · rw [if_neg hacc]
      exact h.2
  · intro hv hm
    have ht : goTrim s ≠ [] := goTrim_ne_nil_of_valid s hv
    have hvt : validateAlbumFormat (goTrim s) = true := by
      rw [validateAlbumFormat_goTrim]; exact hv
    have hcond : ¬ ((!validateAlbumFormat (goTrim s)) = true) := by
      rw [hvt]; simp
    have hstep : import3Loop ⟨q.map lowerTrim, [], 0, 0, 0⟩ [s, s] =
        ⟨q.map lowerTrim ++ [lowerTrim s], [goTrim s], 1, 1, 0⟩ := by
      simp only [import3Loop]
      rw [if_neg ht, if_neg hcond,
        if_neg (show ¬ lowerStr (goTrim s) ∈ q.map lowerTrim from hm),
        if_neg ht, if_neg hcond,
        if_pos (show lowerStr (goTrim s) ∈
          q.map lowerTrim ++ [lowerStr (goTrim s)] from
          List.mem_append_right _ (List.mem_singleton.mpr rfl))]
      rfl
    have hres : ImportAlbums3 q [s, s] =
        ⟨1, 1, 0, [goTrim s], q ++ [goTrim s], [q ++ [goTrim s]]⟩ := by
      simp only [ImportAlbums3, hstep]
      norm_num
    rw [hres]
    refine ⟨rfl, rfl, rfl, ?_⟩
    unfold ciCount
    rw [List.filter_append,
      ciFilter_nil_of_notMem q s hm,
      List.filter_cons,
      if_pos (by rw [lowerTrim_goTrim]; exact beq_self_eq_true _)]
    rfl

/-- Witness for C4: the invariant survives an add and an import on concrete
data, and the batch `["A - B", "A - B"]` against queue `["C - D"]` inserts
once and counts the second copy as a duplicate. -/
theorem mutatingOps_preserve_ciNodup_witness :
    ciNodup (fileAfter ["C - D".toList]
      (AddAlbum ["C - D".toList] "A - B".toList).2) ∧
    ciNodup (ImportAlbums ["C - D".toList]
      ["A - B".toList, "a - b".toList]).queue ∧
    ((ImportAlbums3 ["C - D".toList] ["A - B".toList, "A - B".toList]).added = 1 ∧
      (ImportAlbums3 ["C - D".toList] ["A - B".toList, "A - B".toList]).dup = 1 ∧
      (ImportAlbums3 ["C - D".toList] ["A - B".toList, "A - B".toList]).invalid = 0 ∧
      ciCount (ImportAlbums3 ["C - D".toList]
        ["A - B".toList, "A - B".toList]).queue "A - B".toList = 1) := by
  refine ⟨?_, ?_, ?_⟩
  · exact (mutatingOps_preserve_ciNodup ["C - D".toList] "A - B".toList []).1
      (by decide) (by rfl)
  · exact (mutatingOps_preserve_ciNodup ["C - D".toList] "A - B".toList
      ["A - B".toList, "a - b".toList]).2.1 (by decide)
  · exact (mutatingOps_preserve_ciNodup ["C - D".toList] "A - B".toList
      []).2.2 (by decide) (by decide)

theorem addAlbumCheck_dup (t : Str) (m : List Str)
    (hv : validateAlbumFormat t = true) (hm : lowerTrim t ∈ m) :
    addAlbumCheck t m = some AddErr.duplicate := by
  simp only [addAlbumCheck]
  have hvt : validateAlbumFormat (goTrim t) = true := by
    rw [validateAlbumFormat_goTrim]; exact hv
  rw [if_neg (by rw [hvt]; simp), if_pos (show lowerStr (goTrim t) ∈ m from hm)]

/-- C6: for a valid album string `s` and any queue satisfying the
uniqueness invariant, adding `s` and then adding any case variant of `s`
leaves the queue with exactly one entry matching `s` (when none existed
before, it is the case-preserved trimmed `s` of the first call); the second
call fails with the duplicate error and writes nothing. -/
theorem addAlbum_idempotentDuplicate (q : List Str) (s s2 : Str)
    (hv : validateAlbumFormat s = true)
    (hcv : lowerStr s2 = lowerStr s)
    (hnd : ciNodup q) :
    (AddAlbum (fileAfter q (AddAlbum q s).2) s2).1 =
        Except.error AddErr.duplicate ∧
    fileAfter (fileAfter q (AddAlbum q s).2)
        (AddAlbum (fileAfter q (AddAlbum q s).2) s2).2 =
      fileAfter q (AddAlbum q s).2 ∧
    ciCount (fileAfter q (AddAlbum q s).2) s = 1 ∧
    ((∀ e ∈ q, lowerTrim e ≠ lowerTrim s) →
      (fileAfter q (AddAlbum q s).2).filter
          (fun e => lowerTrim e == lowerTrim s) = [goTrim s]) := by
  have hv2 : validateAlbumFormat s2 = true := by
    rw [← validateAlbumFormat_lower s2, hcv, validateAlbumFormat_lower]
    exact hv
  have hlt2 : lowerTrim s2 = lowerTrim s := by
    show lowerStr (goTrim s2) = lowerStr (goTrim s)
    rw [← goTrim_lower, ← goTrim_lower, hcv]
  by_cases hm : lowerTrim s ∈ q.map lowerTrim
  · have hchk1 : addAlbumCheck s (q.map lowerTrim) = some AddErr.duplicate :=
      addAlbumCheck_dup s (q.map lowerTrim) hv hm
    have hq1 : fileAfter q (AddAlbum q s).2 = q := by
      simp only [AddAlbum, hchk1]
      rfl
    rw [hq1]
    have hchk2 : addAlbumCheck s2 (q.map lowerTrim) = some AddErr.duplicate :=
      addAlbumCheck_dup s2 (q.map lowerTrim) hv2 (hlt2 ▸ hm)
    refine ⟨?_, ?_, ?_, ?_⟩
    · simp only [AddAlbum, hchk2]
    · simp only [AddAlbum, hchk2]
      rfl
    · exact ciCount_eq_one_of_mem q s hnd hm
    · intro hall
      exfalso
      rcases List.mem_map.mp hm with ⟨e, he, heq⟩
      exact hall e he heq
  · have hchk1 : addAlbumCheck s (q.map lowerTrim) = none := by
      rw [addAlbumCheck_none_iff]
      exact ⟨hv, hm⟩
    have hq1 : fileAfter q (AddAlbum q s).2 = q ++ [goTrim s] := by
      simp only [AddAlbum, hchk1]
      rfl
    rw [hq1]
    have hmem2 : lowerTrim s2 ∈ (q ++ [goTrim s]).map lowerTrim := by
      rw [hlt2, List.map_append]
      refine List.mem_append_right _ ?_
      simp only [List.map_cons, List.map_nil, List.mem_singleton]
      rw [lowerTrim_goTrim]
    have hchk2 : addAlbumCheck s2 ((q ++ [goTrim s]).map lowerTrim) =
        some AddErr.duplicate :=
      addAlbumCheck_dup s2 _ hv2 hmem2
    refine ⟨?_, ?_, ?_, ?_⟩
    · simp only [AddAlbum, hchk2]
    · simp only [AddAlbum, hchk2]
      rfl
    · unfold ciCount
      rw [List.filter_append, ciFilter_nil_of_notMem q s hm, List.filter_cons,
        if_pos (by rw [lowerTrim_goTrim]; exact beq_self_eq_true _)]
      rfl
    · intro _
      rw [List.filter_append, ciFilter_nil_of_notMem q s hm, List.filter_cons,
        if_pos (by rw [lowerTrim_goTrim]; exact beq_self_eq_true _)]
      rfl

/-- Witness for C6, on the spec's example pair
`"Pink Floyd - IV"` / `"PINK FLOYD - IV"` over the empty queue. -/
theorem addAlbum_idempotentDuplicate_witness :
    (AddAlbum (fileAfter [] (AddAlbum [] "Pink Floyd - IV".toList).2)
        "PINK FLOYD - IV".toList).1 = Except.error AddErr.duplicate ∧
    ciCount (fileAfter [] (AddAlbum [] "Pink Floyd - IV".toList).2)
        "Pink Floyd - IV".toList = 1 ∧
    (fileAfter [] (AddAlbum [] "Pink Floyd - IV".toList).2).filter
        (fun e => lowerTrim e == lowerTrim "Pink Floyd - IV".toList) =
      [goTrim "Pink Floyd - IV".toList] := by
  have h := addAlbum_idempotentDuplicate [] "Pink Floyd - IV".toList
    "PINK FLOYD - IV".toList (by decide) (by decide) (by decide)
  exact ⟨h.1, h.2.2.1, h.2.2.2 (by decide)⟩

end MusicQueue
